import Mathlib

/-!
Verification of the model-registry and lifecycle behaviour of the
`ml-serving-tool` repository (`src/api/github_client.py` and
`src/api/rest_api.py`), as a shallow embedding in Lean.

External effects (HTTP calls to GitHub, the filesystem, the messaging
transports, the model loader) are modelled as explicit inputs; the
in-memory data manipulation of the Python code is translated function by
function.
-/

namespace MLServe

/-! ## Python string/path helpers -/

/-- Index of the last occurrence of `c` in `l` (Python `str.rfind`, as an
`Option`). -/
def lastIdx (l : List Char) (c : Char) : Option Nat :=
  (l.enum.filter (fun p => p.2 = c)).getLast?.map (fun p => p.1)

/-- The root part of `os.path.splitext` (POSIX): split off the extension at
the last dot, except when every character between the last path separator
and that dot is itself a dot (leading dots do not start an extension). -/
def splitextRoot (p : String) : String :=
  let l := p.data
  let sepIdx : Int := match lastIdx l '/' with
    | some i => (i : Int)
    | none => -1
  match lastIdx l '.' with
  | none => p
  | some d =>
    if (d : Int) > sepIdx then
      let fi := (sepIdx + 1).toNat
      if ((l.drop fi).take (d - fi)).any (fun ch => ch ≠ '.') then
        ⟨l.take d⟩
      else p
    else p

/-- Python `str.startswith`, at character level. -/
def strStarts (s p : String) : Bool := p.data.isPrefixOf s.data

/-- Python `str.endswith`, at character level. -/
def strEnds (s p : String) : Bool := p.data.isSuffixOf s.data

/-- `posixpath.join` restricted to two components, as the source uses it. -/
def pathJoin (a b : String) : String :=
  if strStarts b "/" then b
  else if a = "" || strEnds a "/" then a ++ b
  else a ++ "/" ++ b

/-- `posixpath.basename`: everything after the last `/`. -/
def basename (p : String) : String :=
  match lastIdx p.data '/' with
  | some i => ⟨p.data.drop (i + 1)⟩
  | none => p

/-! ## Python `dict` (insertion-ordered, unique keys) -/

/-- `d[k] = v` on an insertion-ordered dict represented as an association
list: overwrite the binding in place if the key is present, append
otherwise. -/
def dictInsert {V : Type} (m : List (String × V)) (k : String) (v : V) :
    List (String × V) :=
  match m with
  | [] => [(k, v)]
  | p :: rest => if p.1 = k then (k, v) :: rest else p :: dictInsert rest k v

/-- `d.get(k)` / key lookup. -/
def dictLookup {V : Type} (m : List (String × V)) (k : String) : Option V :=
  match m with
  | [] => none
  | p :: rest => if p.1 = k then some p.2 else dictLookup rest k

/-- The key set of a dict, in insertion order. -/
def dictKeys {V : Type} (m : List (String × V)) : List String :=
  m.map Prod.fst

/-! ## Data model -/

/-- One GitHub Contents-API root item, as consumed by `list_github_models`:
its `name` and its `type` string (`"file"`, `"dir"`, or anything else). -/
structure GithubItem where
  name : String
  type : String
deriving DecidableEq, Repr

/-- The metadata record stored in the registry for one model.  GitHub
entries carry a `type` field; local-filesystem entries do not, hence the
`Option`. -/
structure Metadata where
  source : String
  model_name : String
  type : Option String
  model_path : String
deriving DecidableEq, Repr

/-- `MODELS_ROOT = "models"` from `github_client.py`. -/
def MODELS_ROOT : String := "models"

/-- One loop iteration of `list_github_models`: register the item into the
accumulating dict, keying files by their extension-stripped name and
folders by their name unchanged; other item types are skipped. -/
def github_step (models : List (String × Metadata)) (item : GithubItem) :
    List (String × Metadata) :=
  if item.type = "file" then
    let model_name := splitextRoot item.name
    dictInsert models model_name
      ⟨"github", model_name, some item.type, MODELS_ROOT ++ "/" ++ item.name⟩
  else if item.type = "dir" then
    dictInsert models item.name
      ⟨"github", item.name, some item.type, MODELS_ROOT ++ "/" ++ item.name⟩
  else models

/-- `list_github_models`, with the repository-root listing supplied as
input (the HTTP call in `list_repo_root` is external). -/
def list_github_models (items : List GithubItem) : List (String × Metadata) :=
  items.foldl github_step []

/-! ## Registry (spec-modelled) and startup initialization -/

/-- An entry of the registry's `active` map, as `predict` reads it:
`model_path`, the in-memory model handle (opaque here), and `model_info`
(the expected-input description). -/
structure ActiveModel where
  model_path : String
  model : Nat
  model_info : String
deriving DecidableEq, Repr

/-- Modelled from the spec: `api/model_registry.py` is not under `src/`.
Spec section 4.1 describes the Registry as "a concurrency-safe key-value
store split into two maps sharing one name space — `available: name →
ModelDescriptor` and `active: name → ActiveEntry`". -/
structure Registry where
  available : List (String × Metadata)
  active : List (String × ActiveModel)
deriving DecidableEq, Repr

/-- The registry with both maps empty. -/
def emptyRegistry : Registry := ⟨[], []⟩

/-- Modelled from the spec: `registry.register_model` is
`registerOrUpdate(descriptor)` of spec section 4.1, "inserts or
overwrites; no error condition", on the `available` map. -/
def register_model (reg : Registry) (name : String) (meta : Metadata) :
    Registry :=
  { reg with available := dictInsert reg.available name meta }

/-- Modelled from the spec: `registry.clear_all` is `clearAll()` of spec
section 4.1, "empties both maps (used only at full reinitialization)". -/
def clear_all (_reg : Registry) : Registry := emptyRegistry

/-- Modelled from the spec: `registry.get_active_model` is `getActive(name)`
of spec section 4.1, a point lookup where "absence is a normal (non-error)
outcome represented as not found". -/
def get_active_model (reg : Registry) (name : String) : Option ActiveModel :=
  dictLookup reg.active name

/-- One `os.listdir(MODELS_PATH)` entry together with the answers the
filesystem gives to `os.path.isdir` / `os.path.isfile` on it. -/
structure FsItem where
  filename : String
  isDir : Bool
  isFile : Bool
deriving DecidableEq, Repr

/-- One loop iteration of `_initialize_from_filesystem`: entries that are a
directory or a regular file are registered under their
extension-stripped name; anything else is skipped. -/
def fs_step (MODELS_PATH : String) (reg : Registry) (item : FsItem) : Registry :=
  if item.isDir || item.isFile then
    let model_name := splitextRoot item.filename
    register_model reg model_name
      ⟨"local_filesystem", model_name, none, pathJoin MODELS_PATH item.filename⟩
  else reg

/-- `_initialize_from_filesystem`, with the existence check and the
directory listing supplied as input. -/
def _initialize_from_filesystem (modelsPathExists : Bool) (MODELS_PATH : String)
    (listing : List FsItem) (reg : Registry) : Registry :=
  if !modelsPathExists then reg
  else listing.foldl (fs_step MODELS_PATH) reg

/-- `_initialize_from_github`: the outcome of `list_repo_root` is supplied
as input; on an exception the error is logged and the registry is left
as it is. -/
def _initialize_from_github (githubItems : Except String (List GithubItem))
    (reg : Registry) : Registry :=
  match githubItems with
  | .ok items =>
    (list_github_models items).foldl (fun r p => register_model r p.1 p.2) reg
  | .error _ => reg

/-- `initialize_models`: clear the registry, then load from the configured
source. -/
def initialize_models (MODEL_SOURCE : String)
    (githubItems : Except String (List GithubItem))
    (modelsPathExists : Bool) (MODELS_PATH : String) (listing : List FsItem)
    (reg : Registry) : Registry :=
  let reg := clear_all reg
  if MODEL_SOURCE = "github" then _initialize_from_github githubItems reg
  else _initialize_from_filesystem modelsPathExists MODELS_PATH listing reg

/-! ## Download / materialization (`download_github_model`)

The local filesystem is modelled as the list of regular-file paths that
exist; the remote repository content under a directory is modelled as a
tree supplied as input (each recursive `github_api_get` returns the
corresponding listing). -/

/-- `d` is a proper prefix directory of path `p` (`p` lies strictly under
directory `d`). -/
def strUnder (d p : String) : Bool := (d ++ "/").data.isPrefixOf p.data

/-- A sane GitHub item name: nonempty and without a path separator. -/
def goodName (n : String) : Bool := !n.data.isEmpty && !n.data.contains '/'

/-- A directory path we can `join` onto: nonempty and not ending in `/`. -/
def goodDir (d : String) : Bool := !d.data.isEmpty && !strEnds d "/"

/-- The GitHub contents tree below a repository directory: each item is a
file (with its `download_url`), a subdirectory with its own listing, or
an item of some other type. -/
inductive GhTree where
  | file (name url : String)
  | dir (name : String) (children : List GhTree)
  | other (typ name : String)

/-- Writing a file to the path-set filesystem (create or overwrite). -/
def addFile (fs : List String) (p : String) : List String :=
  if p ∈ fs then fs else fs ++ [p]

/-- `os.path.exists(d)` in the path-set model: `d` itself is a file, or
some file lies under `d`. -/
def fsExistsDir (fs : List String) (d : String) : Bool :=
  fs.any (fun p => p == d || strUnder d p)

/-- `shutil.rmtree d`: remove everything at or under `d`. -/
def rmtree (fs : List String) (d : String) : List String :=
  fs.filter (fun p => !(p == d || strUnder d p))

/-- `download_folder`, recursing over the supplied contents tree: files are
downloaded to `pathJoin local_path name`, directories recurse, and an
unknown item type raises. -/
def download_forest (fs : List String) (ts : List GhTree) (lp : String) :
    Except String (List String) :=
  match ts with
  | [] => .ok fs
  | GhTree.file n _ :: rest => download_forest (addFile fs (pathJoin lp n)) rest lp
  | GhTree.dir n cs :: rest =>
    match download_forest fs cs (pathJoin lp n) with
    | .ok fs2 => download_forest fs2 rest lp
    | .error e => .error e
  | GhTree.other t _ :: _ => .error ("Unknown GitHub item type: " ++ t)

/-- The file paths `download_folder` creates under `lp` for a given tree. -/
def forestPaths (ts : List GhTree) (lp : String) : List String :=
  match ts with
  | [] => []
  | GhTree.file n _ :: rest => pathJoin lp n :: forestPaths rest lp
  | GhTree.dir n cs :: rest => forestPaths cs (pathJoin lp n) ++ forestPaths rest lp
  | GhTree.other _ _ :: rest => forestPaths rest lp

/-- All item names in the tree are sane and no item has an unknown type. -/
def forestValid (ts : List GhTree) : Bool :=
  match ts with
  | [] => true
  | GhTree.file n _ :: rest => goodName n && forestValid rest
  | GhTree.dir n cs :: rest => goodName n && forestValid cs && forestValid rest
  | GhTree.other _ _ :: _ => false

/-- What `github_api_get(model_path)` resolves to in
`download_github_model`: a file dict, a directory listing, or something
else. -/
inductive GhInfo where
  | fileInfo (download_url : String)
  | dirListing (children : List GhTree)
  | otherInfo

/-- `download_github_model`: a single file goes to
`/models/<basename(model_path)>`; a directory is materialized at
`/models/<model_name>` after any pre-existing destination is removed;
anything else raises. -/
def download_github_model (model_entry : Metadata) (info : GhInfo)
    (fs : List String) : Except String (String × List String) :=
  match info with
  | .fileInfo _ =>
    let dest_file := pathJoin "/models" (basename model_entry.model_path)
    .ok (dest_file, addFile fs dest_file)
  | .dirListing children =>
    let dest_dir := pathJoin "/models" model_entry.model_name
    let fs1 := if fsExistsDir fs dest_dir then rmtree fs dest_dir else fs
    match download_forest fs1 children dest_dir with
    | .ok fs2 => .ok (dest_dir, fs2)
    | .error e => .error e
  | .otherInfo =>
    .error ("Unsupported GitHub model type for path: " ++ model_entry.model_path)

/-! ## HTTP handlers -/

/-- A JSON value, as Flask parses and produces it. -/
inductive Json where
  | null
  | bool (b : Bool)
  | num (n : Int)
  | str (s : String)
  | arr (xs : List Json)
  | obj (fields : List (String × Json))

/-- An HTTP response: status code and JSON body. -/
structure HttpResponse where
  status : Nat
  body : Json

/-- Python truthiness of a JSON value (`payload or {}`). -/
def jsonTruthy : Json → Bool
  | .null => false
  | .bool b => b
  | .num n => n != 0
  | .str s => s != ""
  | .arr xs => !xs.isEmpty
  | .obj fs => !fs.isEmpty

/-- Python `payload.get(key)`: `None` for a missing key, and an
`AttributeError` when the receiver is not a dict. -/
def pyGet (j : Json) (k : String) : Except String (Option Json) :=
  match j with
  | .obj fs => .ok ((fs.find? (fun p => p.1 == k)).map (fun p => p.2))
  | _ => .error "AttributeError"

/-- `request.get_json(silent=True) or {}`. -/
def predictPayload (request_json : Option Json) : Json :=
  match request_json with
  | none => Json.obj []
  | some j => if jsonTruthy j then j else Json.obj []

/-- `payload.get("input")` on the predict request body; an exception here
escapes the handler (it is raised before the `try` block). -/
def predictFeatures (request_json : Option Json) : Except String (Option Json) :=
  pyGet (predictPayload request_json) "input"

/-- Unwrap a TF-Serving result: a dict with a `predictions` key is
replaced by that key's value. -/
def unwrapPredictions (result : Json) : Json :=
  match result with
  | Json.obj fs =>
    match fs.find? (fun p => p.1 == "predictions") with
    | some p => p.2
    | none => result
  | _ => result

/-- The `try` block of `predict`, entered with the extracted features:
run inference, unwrap a TF-Serving `predictions` wrapper, forward the
result, and answer; an inference exception is caught, forwarded
(result discarded) and answered with 400. -/
def predictWithFeatures (active_model : ActiveModel) (model_name : String)
    (features : Option Json)
    (infer : String → Nat → Option Json → Except String Json)
    (send_ok : Json → String → Bool)
    (PREDICTION_DESTINATION : String) : HttpResponse :=
  match infer active_model.model_path active_model.model features with
  | .ok result0 =>
    let result := unwrapPredictions result0
    let response_payload := Json.obj
      [("model", Json.str model_name), ("status", Json.str "success"),
        ("prediction", result)]
    if !send_ok response_payload model_name then
      ⟨500, Json.obj [("error", Json.str "Failed to forward prediction")]⟩
    else
      ⟨200, Json.obj
        [("status", Json.str "sent"),
          ("destination", Json.str PREDICTION_DESTINATION),
          ("prediction", result)]⟩
  | .error e =>
    let error_message := Json.obj
      [("model", Json.str model_name), ("status", Json.str "error"),
        ("error", Json.str e), ("expected_input", Json.str active_model.model_info)]
    ⟨400, error_message⟩

/-- The `/predict/<model_name>` handler.  Inference
(`model_detector.predict`) and forwarding
(`send_message_to_prediction_destination`) are external capabilities
supplied as inputs; a `.error` result is an exception escaping the
handler. -/
def predict (reg : Registry) (model_name : String) (request_json : Option Json)
    (infer : String → Nat → Option Json → Except String Json)
    (send_ok : Json → String → Bool)
    (PREDICTION_DESTINATION : String) : Except String HttpResponse :=
  match get_active_model reg model_name with
  | none =>
    .ok ⟨404, Json.obj
      [("error", Json.str ("Model '" ++ model_name ++ "' not active"))]⟩
  | some active_model =>
    match predictFeatures request_json with
    | .error e => .error e
    | .ok features =>
      .ok (predictWithFeatures active_model model_name features infer send_ok
        PREDICTION_DESTINATION)

/-- The `/deactivate/<model_name>` handler: call the lifecycle manager
(whose result is supplied as input) and answer `{"message": message}`;
the success flag is not inspected. -/
def deactivate_model (lifecycle_result : Bool × String) : HttpResponse :=
  ⟨200, Json.obj [("message", Json.str lifecycle_result.2)]⟩

/-! ## Webhook handler -/

/-- The kind of change a sync event carries. -/
inductive ChangeType where
  | added
  | modified
  | removed
deriving DecidableEq, Repr

/-- A sync event: `{changeType, path}` (spec section 3). -/
structure SyncEvent where
  changeType : ChangeType
  path : String
deriving DecidableEq, Repr

/-- A GitHub push payload as the webhook handler consumes it: the pushed
ref and the changed file paths. -/
structure PushPayload where
  ref : String
  changedPaths : List String
deriving DecidableEq, Repr

/-- Modelled from the spec: `api/webhook_handler.py` is not under `src/`.
Spec section 4.4: the webhook path, "given a list of changed file paths
from a push notification (restricted to a configured branch), computes,
for each changed path that falls under the models root, a SyncEvent".
A push whose ref is not the filter branch yields no events; the kind of
each event (the diff against the registry) is supplied as input. -/
def handle_push_event (payload : PushPayload) (branch_filter : String)
    (classify : String → ChangeType) : List SyncEvent :=
  if payload.ref == branch_filter then
    (payload.changedPaths.filter (fun p => strStarts p (MODELS_ROOT ++ "/"))).map
      (fun p => ⟨classify p, p⟩)
  else []

/-- The `/github/webhook` handler: `ping` answers pong, non-push events
are acknowledged without processing, and a push event is handed to
`handle_push_event` with `branch_filter="refs/heads/main"`.  Returns the
HTTP response and the sync events produced. -/
def github_webhook (event : Option String) (payload : PushPayload)
    (classify : String → ChangeType) : HttpResponse × List SyncEvent :=
  if event == some "ping" then
    (⟨200, Json.obj [("status", Json.str "pong")]⟩, [])
  else if event != some "push" then
    (⟨200, Json.obj [("status", Json.str "received")]⟩, [])
  else
    (⟨200, Json.obj [("status", Json.str "processed")]⟩,
      handle_push_event payload "refs/heads/main" classify)

/-! ## Shutdown handler -/

/-- The outcome of one external release call: normal return or an
exception with a message. -/
def Outcome : Type := Except String Unit

/-- A Python `try/except Exception` block around one release call: the
success log line on normal return, the error log line on an exception;
nothing propagates. -/
def pyTry (body : Outcome) (okLog : String) (errLog : String → String) :
    List String :=
  match body with
  | .ok _ => [okLog]
  | .error e => [errLog e]

/-- The result of running `cleanup`: the log it produced and whether it
reached `sys.exit(0)`. -/
structure CleanupResult where
  log : List String
  exited : Bool
deriving DecidableEq, Repr

/-- The `cleanup` signal handler.  The consumer-stop calls and each
container's `remove(force=True)` are external effects whose outcomes are
supplied as inputs; a `.error` overall result would be an exception
escaping the handler. -/
def cleanup (_signum : Int) (INPUT_DATA_SOURCE : String)
    (stop_kafka : Outcome) (stop_mqtt : Outcome)
    (containers : List (String × Outcome)) : Except String CleanupResult :=
  .ok ⟨["[SHUTDOWN] Starting cleanup..."] ++
    (if INPUT_DATA_SOURCE == "kafka" then
      pyTry stop_kafka "[SHUTDOWN] Kafka consumer stopped"
        (fun e => "[SHUTDOWN] Failed to stop Kafka consumer: " ++ e)
    else if INPUT_DATA_SOURCE == "mqtt" then
      pyTry stop_mqtt "[SHUTDOWN] MQTT consumer stopped"
        (fun e => "[SHUTDOWN] Failed to stop MQTT consumer: " ++ e)
    else []) ++
    ["[SHUTDOWN] Stopping TF Serving containers..."] ++
    containers.flatMap
      (fun c => pyTry c.2 ("[SHUTDOWN] Stopped " ++ c.1)
        (fun e => "[SHUTDOWN] Failed to stop " ++ c.1 ++ ": " ++ e)) ++
    ["[SHUTDOWN] Cleanup complete"], true⟩

/-! ## Concrete sample values used in witnesses and counterexamples -/

/-- A sample active-map entry. -/
def am0 : ActiveModel := ⟨"/models/m.pkl", 0, "numeric vector"⟩

/-- A registry with one available and one active model `m`. -/
def reg0 : Registry :=
  ⟨[("m", ⟨"github", "m", some "file", "models/m.pkl"⟩)], [("m", am0)]⟩

/-- A sample inference capability that always succeeds. -/
def infer0 : String → Nat → Option Json → Except String Json :=
  fun _ _ _ => .ok (Json.num 1)

/-- A forwarding capability that always fails. -/
def sendFalse : Json → String → Bool := fun _ _ => false

/-- A forwarding capability that always succeeds. -/
def sendTrue : Json → String → Bool := fun _ _ => true

/-- A sample folder-based model entry. -/
def entry0 : Metadata := ⟨"github", "x", some "dir", "models/x"⟩

/-- A sample contents tree: one file and one subdirectory with a file. -/
def children0 : List GhTree :=
  [GhTree.file "a.bin" "u1", GhTree.dir "sub" [GhTree.file "b.bin" "u2"]]

/-- A sample filesystem with a stale file under the destination and an
unrelated file elsewhere. -/
def fs0 : List String := ["/models/x/old.bin", "/other/keep.txt"]

/-! ## Supporting lemmas -/

theorem dictKeys_insert {V : Type} (m : List (String × V)) (k : String) (v : V) :
    dictKeys (dictInsert m k v) =
      if k ∈ dictKeys m then dictKeys m else dictKeys m ++ [k] := by
  induction m with
  | nil => simp [dictInsert, dictKeys]
  | cons p rest ih =>
    by_cases h : p.1 = k
    · subst h
      simp [dictInsert, dictKeys]
    · have hne : k ≠ p.1 := fun he => h he.symm
      simp only [dictInsert, if_neg h, dictKeys, List.map_cons] at *
      rw [ih]
      by_cases hm : k ∈ List.map Prod.fst rest
      · simp [hm, hne]
      · simp [hm, hne]

theorem dictInsert_nodupKeys {V : Type} (m : List (String × V)) (k : String)
    (v : V) (h : (dictKeys m).Nodup) : (dictKeys (dictInsert m k v)).Nodup := by
  rw [dictKeys_insert]
  by_cases hk : k ∈ dictKeys m
  · simp [hk, h]
  · simp only [if_neg hk]
    rw [List.nodup_append]
    refine ⟨h, List.nodup_singleton k, ?_⟩
    intro a ha hb
    simp at hb
    exact hk (hb ▸ ha)

theorem dictLookup_insert_self {V : Type} (m : List (String × V)) (k : String)
    (v : V) : dictLookup (dictInsert m k v) k = some v := by
  induction m with
  | nil => simp [dictInsert, dictLookup]
  | cons p rest ih =>
    by_cases h : p.1 = k
    · simp [dictInsert, dictLookup, h]
    · simp [dictInsert, dictLookup, h, ih]

theorem dictInsert_notMem {V : Type} (m : List (String × V)) (k : String)
    (v : V) (h : k ∉ dictKeys m) : dictInsert m k v = m ++ [(k, v)] := by
  induction m with
  | nil => simp [dictInsert]
  | cons p rest ih =>
    simp only [dictKeys, List.map_cons, List.mem_cons] at h
    push_neg at h
    obtain ⟨h1, h2⟩ := h
    have hp : p.1 ≠ k := fun he => h1 he.symm
    simp [dictInsert, hp, ih h2]

theorem list_github_models_nodup_aux (items : List GithubItem)
    (acc : List (String × Metadata)) (h : (dictKeys acc).Nodup) :
    (dictKeys (items.foldl github_step acc)).Nodup := by
  induction items generalizing acc with
  | nil => simpa using h
  | cons it rest ih =>
    simp only [List.foldl_cons]
    apply ih
    unfold github_step
    by_cases h1 : it.type = "file"
    · simp only [if_pos h1]
      exact dictInsert_nodupKeys _ _ _ h
    · by_cases h2 : it.type = "dir"
      · simp only [if_neg h1, if_pos h2]
        exact dictInsert_nodupKeys _ _ _ h
      · simpa [if_neg h1, if_neg h2] using h

theorem fs_init_nodup_aux (MODELS_PATH : String) (listing : List FsItem)
    (reg : Registry) (h : (dictKeys reg.available).Nodup) :
    (dictKeys (listing.foldl (fs_step MODELS_PATH) reg).available).Nodup := by
  induction listing generalizing reg with
  | nil => simpa using h
  | cons it rest ih =>
    simp only [List.foldl_cons]
    apply ih
    unfold fs_step
    by_cases h1 : (it.isDir || it.isFile) = true
    · rw [if_pos h1]
      exact dictInsert_nodupKeys _ _ _ h
    · rw [if_neg h1]
      exact h

/-- Registering github entries in order into an empty registry reproduces
the `list_github_models` dict itself. -/
theorem register_fold_of_nodup (l : List (String × Metadata)) (acc : Registry)
    (hd : (dictKeys acc.available).Nodup)
    (hdisj : ∀ p ∈ l, p.1 ∉ dictKeys acc.available)
    (hl : (dictKeys l).Nodup) :
    (l.foldl (fun r p => register_model r p.1 p.2) acc).available =
      acc.available ++ l := by
  induction l generalizing acc with
  | nil => simp
  | cons p rest ih =>
    simp only [List.foldl_cons]
    have hp : p.1 ∉ dictKeys acc.available := hdisj p (by simp)
    rw [ih (register_model acc p.1 p.2)]
    · simp [register_model, dictInsert_notMem _ _ _ hp]
    · simp only [register_model, dictInsert_notMem _ _ _ hp]
      simp only [dictKeys, List.map_append]
      rw [List.nodup_append]
      refine ⟨hd, by simp, ?_⟩
      intro a ha hb
      simp at hb
      exact hp (hb ▸ ha)
    · intro q hq
      simp only [register_model, dictInsert_notMem _ _ _ hp, dictKeys,
        List.map_append, List.mem_append]
      rintro (hmem | hmem)
      · exact hdisj q (by simp [hq]) hmem
      · simp only [dictKeys, List.map_cons, List.nodup_cons] at hl
        simp at hmem
        exact hl.1 (hmem ▸ List.mem_map_of_mem Prod.fst hq)
    · simp only [dictKeys, List.map_cons, List.nodup_cons] at hl
      exact hl.2

/-! ### Prefix lemmas for the path-set filesystem -/

theorem isPrefixOf_iff_ex {α : Type} [DecidableEq α] (a b : List α) :
    a.isPrefixOf b = true ↔ ∃ t, b = a ++ t := by
  induction a generalizing b with
  | nil => simp [List.isPrefixOf]
  | cons x xs ih =>
    cases b with
    | nil => simp [List.isPrefixOf]
    | cons y ys =>
      simp only [List.isPrefixOf, Bool.and_eq_true, beq_iff_eq, ih,
        List.cons_append, List.cons.injEq]
      constructor
      · rintro ⟨rfl, t, rfl⟩
        exact ⟨t, rfl, rfl⟩
      · rintro ⟨t, rfl, rfl⟩
        exact ⟨rfl, t, rfl⟩

theorem listPref_app {α : Type} [DecidableEq α] (a t : List α) :
    a.isPrefixOf (a ++ t) = true :=
  (isPrefixOf_iff_ex a (a ++ t)).mpr ⟨t, rfl⟩

theorem listPref_trans {α : Type} [DecidableEq α] {a b c : List α}
    (h1 : a.isPrefixOf b = true) (h2 : b.isPrefixOf c = true) :
    a.isPrefixOf c = true := by
  rw [isPrefixOf_iff_ex] at h1 h2 ⊢
  obtain ⟨t, rfl⟩ := h1
  obtain ⟨u, rfl⟩ := h2
  exact ⟨t ++ u, by simp⟩

theorem strStarts_slash_eq_false {n : String} (hn : goodName n = true) :
    strStarts n "/" = false := by
  unfold strStarts goodName at *
  simp only [Bool.and_eq_true, Bool.not_eq_true'] at hn
  obtain ⟨h1, h2⟩ := hn
  cases hd : n.data with
  | nil => rw [hd] at h1; simp at h1
  | cons c cs =>
    rw [hd] at h2
    have hc : c ≠ '/' := by
      intro he
      rw [he] at h2
      simp [List.contains_cons] at h2
    show List.isPrefixOf ['/'] (c :: cs) = false
    simp [List.isPrefixOf]
    intro he
    exact absurd he.symm hc

theorem pathJoin_good {lp n : String} (hlp : goodDir lp = true)
    (hn : goodName n = true) : pathJoin lp n = lp ++ "/" ++ n := by
  unfold pathJoin
  rw [strStarts_slash_eq_false hn]
  unfold goodDir at hlp
  simp only [Bool.and_eq_true, Bool.not_eq_true'] at hlp
  obtain ⟨h1, h2⟩ := hlp
  have hne : ¬ lp = "" := by
    intro he
    rw [he] at h1
    simp at h1
  simp [hne, h2]

theorem goodDir_join {lp n : String} (_hlp : goodDir lp = true)
    (hn : goodName n = true) : goodDir (lp ++ "/" ++ n) = true := by
  unfold goodDir strEnds at *
  unfold goodName at hn
  simp only [Bool.and_eq_true, Bool.not_eq_true'] at hn ⊢
  obtain ⟨hn1, hn2⟩ := hn
  constructor
  · show ((lp ++ "/" ++ n).data).isEmpty = false
    have : (lp ++ "/" ++ n).data = lp.data ++ '/' :: n.data := by
      show lp.data ++ "/".data ++ n.data = _
      simp
    rw [this]
    cases lp.data <;> simp
  · show List.isSuffixOf "/".data ((lp ++ "/" ++ n).data) = false
    unfold List.isSuffixOf
    have hrev : ((lp ++ "/" ++ n).data).reverse =
        n.data.reverse ++ ('/' :: lp.data.reverse) := by
      show (lp.data ++ "/".data ++ n.data).reverse = _
      simp
    rw [hrev]
    cases hd : n.data.reverse with
    | nil =>
      exfalso
      rw [List.reverse_eq_nil_iff] at hd
      rw [hd] at hn1
      simp at hn1
    | cons c cs =>
      have hcmem : c ∈ n.data := by
        rw [← List.mem_reverse, hd]
        simp
      have hc : c ≠ '/' := by
        intro he
        rw [he] at hcmem
        have : n.data.contains '/' = true := List.elem_eq_true_of_mem hcmem
        rw [this] at hn2
        simp at hn2
      show List.isPrefixOf ['/'] (c :: cs ++ ('/' :: lp.data.reverse)) = false
      simp [List.isPrefixOf]
      intro he
      exact absurd he.symm hc

theorem strUnder_of_append (lp s : String) :
    strUnder lp ((lp ++ "/") ++ s) = true := by
  unfold strUnder
  show (lp ++ "/").data.isPrefixOf ((lp ++ "/").data ++ s.data) = true
  exact listPref_app _ _

theorem strUnder_extend {lp n p : String} (h : strUnder (lp ++ "/" ++ n) p = true) :
    strUnder lp p = true := by
  unfold strUnder at *
  refine listPref_trans ?_ h
  show (lp ++ "/").data.isPrefixOf ((lp ++ "/" ++ n ++ "/").data) = true
  have : (lp ++ "/" ++ n ++ "/").data = (lp ++ "/").data ++ (n.data ++ "/".data) := by
    show lp.data ++ "/".data ++ n.data ++ "/".data = _
    simp
  rw [this]
  exact listPref_app _ _

/-! ### `download_folder` correctness -/

theorem mem_addFile {fs : List String} {p q : String} :
    p ∈ addFile fs q ↔ p ∈ fs ∨ p = q := by
  unfold addFile
  by_cases h : q ∈ fs
  · simp only [if_pos h]
    constructor
    · exact Or.inl
    · rintro (hp | rfl)
      · exact hp
      · exact h
  · simp [if_neg h]

theorem mem_foldl_addFile (l : List String) (fs : List String) (p : String) :
    p ∈ l.foldl addFile fs ↔ p ∈ fs ∨ p ∈ l := by
  induction l generalizing fs with
  | nil => simp
  | cons q rest ih =>
    simp only [List.foldl_cons, ih, mem_addFile]
    constructor
    · rintro ((hp | rfl) | hp)
      · exact Or.inl hp
      · exact Or.inr (by simp)
      · exact Or.inr (by simp [hp])
    · rintro (hp | hp)
      · exact Or.inl (Or.inl hp)
      · rcases List.mem_cons.mp hp with rfl | hp
        · exact Or.inl (Or.inr rfl)
        · exact Or.inr hp

theorem download_forest_ok (fs : List String) (ts : List GhTree) (lp : String)
    (hv : forestValid ts = true) :
    download_forest fs ts lp = .ok ((forestPaths ts lp).foldl addFile fs) := by
  induction fs, ts, lp using download_forest.induct with
  | case1 fs lp => simp [download_forest, forestPaths]
  | case2 fs n u rest lp ih =>
    unfold forestValid at hv
    simp only [Bool.and_eq_true] at hv
    simp [download_forest, forestPaths, ih hv.2]
  | case3 fs n cs rest lp fs2 heq ih1 ih2 =>
    unfold forestValid at hv
    simp only [Bool.and_eq_true] at hv
    rw [ih1 hv.1.2] at heq
    cases heq
    simp [download_forest, forestPaths, ih1 hv.1.2, ih2 hv.2, List.foldl_append]
  | case4 fs n cs rest lp e heq ih1 =>
    unfold forestValid at hv
    simp only [Bool.and_eq_true] at hv
    rw [ih1 hv.1.2] at heq
    cases heq
  | case5 fs t n rest lp =>
    unfold forestValid at hv
    simp at hv

theorem forestPaths_under (ts : List GhTree) (lp : String)
    (hv : forestValid ts = true) (hlp : goodDir lp = true) :
    ∀ p ∈ forestPaths ts lp, strUnder lp p = true := by
  induction ts, lp using forestPaths.induct with
  | case1 lp => simp [forestPaths]
  | case2 lp n u rest ih =>
    unfold forestValid at hv
    simp only [Bool.and_eq_true] at hv
    intro p hp
    simp only [forestPaths, List.mem_cons] at hp
    rcases hp with rfl | hp
    · rw [pathJoin_good hlp hv.1]
      exact strUnder_of_append lp n
    · exact ih hv.2 hlp p hp
  | case3 lp n cs rest ih1 ih2 =>
    unfold forestValid at hv
    simp only [Bool.and_eq_true] at hv
    intro p hp
    simp only [forestPaths, List.mem_append] at hp
    rcases hp with hp | hp
    · have hlp' : goodDir (pathJoin lp n) = true := by
        rw [pathJoin_good hlp hv.1.1]
        exact goodDir_join hlp hv.1.1
      have := ih1 hv.1.2 hlp' p hp
      rw [pathJoin_good hlp hv.1.1] at this
      exact strUnder_extend this
    · exact ih2 hv.2 hlp p hp
  | case4 lp t n rest ih =>
    unfold forestValid at hv
    simp at hv

theorem clean_no_under (fs : List String) (d : String) (p : String)
    (hp : p ∈ (if fsExistsDir fs d then rmtree fs d else fs)) :
    strUnder d p = false := by
  by_cases h : fsExistsDir fs d = true
  · rw [if_pos h] at hp
    unfold rmtree at hp
    rw [List.mem_filter] at hp
    have h2 : (p == d || strUnder d p) = false := by
      have h3 := hp.2
      cases hb : (p == d || strUnder d p) with
      | false => rfl
      | true =>
        rw [hb] at h3
        simp at h3
    exact (Bool.or_eq_false_iff.mp h2).2
  · rw [if_neg h] at hp
    unfold fsExistsDir at h
    have h2 : ∀ q ∈ fs, (q == d || strUnder d q) = false := by
      intro q hq
      cases hb : (q == d || strUnder d q) with
      | false => rfl
      | true =>
        exact absurd (List.any_eq_true.mpr ⟨q, hq, hb⟩) h
    exact (Bool.or_eq_false_iff.mp (h2 p hp)).2

theorem register_fold_active (l : List (String × Metadata)) (acc : Registry) :
    (l.foldl (fun r p => register_model r p.1 p.2) acc).active = acc.active := by
  induction l generalizing acc with
  | nil => rfl
  | cons p rest ih =>
    simp only [List.foldl_cons]
    rw [ih]
    rfl

theorem fs_fold_active (mp : String) (listing : List FsItem) (acc : Registry) :
    (listing.foldl (fs_step mp) acc).active = acc.active := by
  induction listing generalizing acc with
  | nil => rfl
  | cons it rest ih =>
    simp only [List.foldl_cons]
    rw [ih]
    unfold fs_step
    by_cases h : (it.isDir || it.isFile) = true
    · rw [if_pos h]
      rfl
    · rw [if_neg h]

/-! ## Claim theorems -/

/-- C1: for every sequence of discovery results processed by model listing
(GitHub listing or filesystem initialization), each model name maps to at
most one descriptor: the key lists stay duplicate-free, and registering a
known name overwrites its descriptor without adding a key. -/
theorem claim1_registry_names_unique :
    (∀ items : List GithubItem,
      (dictKeys (list_github_models items)).Nodup) ∧
    (∀ (ex : Bool) (mp : String) (listing : List FsItem) (reg : Registry),
      (dictKeys reg.available).Nodup →
      (dictKeys (_initialize_from_filesystem ex mp listing reg).available).Nodup) ∧
    (∀ (reg : Registry) (name : String) (meta : Metadata),
      (dictKeys reg.available).Nodup →
      (dictKeys (register_model reg name meta).available).Nodup ∧
      dictLookup (register_model reg name meta).available name = some meta ∧
      (name ∈ dictKeys reg.available →
        dictKeys (register_model reg name meta).available =
          dictKeys reg.available)) := by
  refine ⟨?_, ?_, ?_⟩
  · intro items
    exact list_github_models_nodup_aux items [] (by simp [dictKeys])
  · intro ex mp listing reg h
    unfold _initialize_from_filesystem
    by_cases hex : (!ex) = true
    · rw [if_pos hex]
      exact h
    · rw [if_neg hex]
      exact fs_init_nodup_aux mp listing reg h
  · intro reg name meta h
    refine ⟨dictInsert_nodupKeys _ _ _ h, dictLookup_insert_self _ _ _, ?_⟩
    intro hmem
    show dictKeys (dictInsert reg.available name meta) = dictKeys reg.available
    rw [dictKeys_insert, if_pos hmem]

/-- Witness for C1 at concrete inputs. -/
theorem claim1_registry_names_unique_witness :
    (dictKeys (list_github_models [⟨"x.pkl", "file"⟩, ⟨"x", "dir"⟩])).Nodup ∧
    (dictKeys (_initialize_from_filesystem true "/models"
      [⟨"a.pkl", false, true⟩, ⟨"a.h5", false, true⟩]
      emptyRegistry).available).Nodup ∧
    dictLookup (register_model
        ⟨[("m", ⟨"github", "m", some "file", "models/m.pkl"⟩)], []⟩ "m"
        ⟨"github", "m", some "dir", "models/m"⟩).available "m" =
      some ⟨"github", "m", some "dir", "models/m"⟩ :=
  ⟨claim1_registry_names_unique.1 _,
    claim1_registry_names_unique.2.1 true "/models" _ emptyRegistry (by decide),
    (claim1_registry_names_unique.2.2
      ⟨[("m", ⟨"github", "m", some "file", "models/m.pkl"⟩)], []⟩ "m"
      ⟨"github", "m", some "dir", "models/m"⟩ (by decide)).2.1⟩

/-- C3 fails as stated: in the local-filesystem initialization path,
`os.path.splitext` is applied to every entry, directories included, so a
directory named `fire.v2` is registered under the key `fire`, not under
its unchanged folder name. -/
theorem claim3_counterexample :
    dictKeys (_initialize_from_filesystem true "/models"
      [⟨"fire.v2", true, false⟩] emptyRegistry).available = ["fire"] ∧
    ("fire.v2" : String) ∉ dictKeys (_initialize_from_filesystem true "/models"
      [⟨"fire.v2", true, false⟩] emptyRegistry).available := by
  constructor
  · decide
  · decide

/-- C3 (amended): the GitHub listing keys files by their
extension-stripped name and folders by their name unchanged; the
local-filesystem initialization applies extension stripping to every
entry, files and folders alike.  (`splitextRoot "rf_model.pkl" =
"rf_model"`.) -/
theorem claim3_key_derivation :
    splitextRoot "rf_model.pkl" = "rf_model" ∧
    (∀ (models : List (String × Metadata)) (item : GithubItem),
      item.type = "file" →
      github_step models item = dictInsert models (splitextRoot item.name)
        ⟨"github", splitextRoot item.name, some item.type,
          MODELS_ROOT ++ "/" ++ item.name⟩) ∧
    (∀ (models : List (String × Metadata)) (item : GithubItem),
      item.type = "dir" →
      github_step models item = dictInsert models item.name
        ⟨"github", item.name, some item.type,
          MODELS_ROOT ++ "/" ++ item.name⟩) ∧
    (∀ (mp : String) (reg : Registry) (it : FsItem),
      (it.isDir || it.isFile) = true →
      fs_step mp reg it = register_model reg (splitextRoot it.filename)
        ⟨"local_filesystem", splitextRoot it.filename, none,
          pathJoin mp it.filename⟩) := by
  refine ⟨by decide, ?_, ?_, ?_⟩
  · intro models item h
    unfold github_step
    rw [if_pos h]
  · intro models item h
    unfold github_step
    rw [if_neg (by simp [h]), if_pos h]
  · intro mp reg it h
    unfold fs_step
    rw [if_pos h]

/-- Witness for C3 (amended) at concrete inputs. -/
theorem claim3_key_derivation_witness :
    github_step [] ⟨"rf_model.pkl", "file"⟩ =
      dictInsert [] "rf_model"
        ⟨"github", "rf_model", some "file", "models/rf_model.pkl"⟩ ∧
    github_step [] ⟨"fire_pytorch", "dir"⟩ =
      dictInsert [] "fire_pytorch"
        ⟨"github", "fire_pytorch", some "dir", "models/fire_pytorch"⟩ ∧
    fs_step "/models" emptyRegistry ⟨"fire.v2", true, false⟩ =
      register_model emptyRegistry "fire"
        ⟨"local_filesystem", "fire", none, "/models/fire.v2"⟩ := by
  refine ⟨?_, ?_, ?_⟩
  · have h := claim3_key_derivation.2.1 [] ⟨"rf_model.pkl", "file"⟩ rfl
    rw [h]
    decide
  · have h := claim3_key_derivation.2.2.1 [] ⟨"fire_pytorch", "dir"⟩ rfl
    rw [h]
    decide
  · have h := claim3_key_derivation.2.2.2 "/models" emptyRegistry
      ⟨"fire.v2", true, false⟩ (by decide)
    rw [h]
    decide

/-- C8: the deactivate endpoint answers 200 with only the lifecycle
manager's message; the success flag is discarded, so a failed
deactivation is indistinguishable from a successful one. -/
theorem claim8_deactivate_discards_success (success success' : Bool)
    (message : String) :
    deactivate_model (success, message) =
      ⟨200, Json.obj [("message", Json.str message)]⟩ ∧
    deactivate_model (success, message) = deactivate_model (success', message) :=
  ⟨rfl, rfl⟩

/-- C10: a file `x.pkl` and a directory `x` at the models root collide on
the registry key `x`; whichever is enumerated later silently replaces the
earlier one, so the two artifacts are never both registered. -/
theorem claim10_key_collision :
    list_github_models [⟨"x.pkl", "file"⟩, ⟨"x", "dir"⟩] =
      [("x", ⟨"github", "x", some "dir", "models/x"⟩)] ∧
    list_github_models [⟨"x", "dir"⟩, ⟨"x.pkl", "file"⟩] =
      [("x", ⟨"github", "x", some "file", "models/x.pkl"⟩)] ∧
    splitextRoot "x.pkl" = "x" := by
  refine ⟨by decide, by decide, by decide⟩

/-- C4: for every termination signal, the shutdown handler returns
normally (never `.error`): each consumer-stop or container-removal
failure is logged, every container is still processed, and `sys.exit`
is reached (`exited = true`). -/
theorem claim4_cleanup_never_raises (signum : Int) (src : String)
    (stop_kafka stop_mqtt : Outcome) (containers : List (String × Outcome)) :
    ∃ log : List String,
      cleanup signum src stop_kafka stop_mqtt containers = .ok ⟨log, true⟩ ∧
      (∀ c ∈ containers,
        (∀ u : Unit, c.2 = .ok u → ("[SHUTDOWN] Stopped " ++ c.1) ∈ log) ∧
        (∀ e : String, c.2 = .error e →
          ("[SHUTDOWN] Failed to stop " ++ c.1 ++ ": " ++ e) ∈ log)) ∧
      "[SHUTDOWN] Cleanup complete" ∈ log := by
  refine ⟨_, rfl, ?_, by simp⟩
  intro c hc
  constructor
  · intro u hu
    have hx : ("[SHUTDOWN] Stopped " ++ c.1) ∈ containers.flatMap
        (fun c => pyTry c.2 ("[SHUTDOWN] Stopped " ++ c.1)
          (fun e => "[SHUTDOWN] Failed to stop " ++ c.1 ++ ": " ++ e)) :=
      List.mem_flatMap.mpr ⟨c, hc, by rw [hu]; simp [pyTry]⟩
    simp [List.mem_append, hx]
  · intro e he
    have hx : ("[SHUTDOWN] Failed to stop " ++ c.1 ++ ": " ++ e) ∈
        containers.flatMap
        (fun c => pyTry c.2 ("[SHUTDOWN] Stopped " ++ c.1)
          (fun e => "[SHUTDOWN] Failed to stop " ++ c.1 ++ ": " ++ e)) :=
      List.mem_flatMap.mpr ⟨c, hc, by rw [he]; simp [pyTry]⟩
    simp [List.mem_append, hx]

/-- Witness for C4 at concrete inputs: a failing Kafka stop and a failing
container removal still end in a normal exit, with both failures logged
and the other container processed. -/
theorem claim4_cleanup_never_raises_witness :
    ∃ log : List String,
      cleanup 15 "kafka" (Except.error "broker gone") (Except.ok ())
        [("tf1", Except.error "no such container"), ("tf2", Except.ok ())] =
        .ok ⟨log, true⟩ ∧
      ("[SHUTDOWN] Failed to stop tf1: no such container") ∈ log ∧
      ("[SHUTDOWN] Stopped tf2") ∈ log := by
  obtain ⟨log, h1, h2, _h3⟩ := claim4_cleanup_never_raises 15 "kafka"
    (Except.error "broker gone") (Except.ok ())
    [("tf1", Except.error "no such container"), ("tf2", Except.ok ())]
  refine ⟨log, h1, ?_, ?_⟩
  · exact (h2 ("tf1", Except.error "no such container") (by simp)).2
      "no such container" rfl
  · exact (h2 ("tf2", Except.ok ()) (by simp)).1 () rfl

/-- C5: a push notification whose ref is not the filter branch
(`refs/heads/main`, the value the webhook endpoint passes) produces no
sync events, hence no registry sync updates. -/
theorem claim5_webhook_branch_restricted (payload : PushPayload)
    (classify : String → ChangeType)
    (h : payload.ref ≠ "refs/heads/main") :
    (github_webhook (some "push") payload classify).2 = [] ∧
    (github_webhook (some "push") payload classify).1.status = 200 := by
  have hbeq : (payload.ref == "refs/heads/main") = false :=
    beq_eq_false_iff_ne.mpr h
  constructor
  · unfold github_webhook
    rw [if_neg (by decide), if_neg (by decide)]
    show handle_push_event payload "refs/heads/main" classify = []
    simp [handle_push_event, hbeq]
  · unfold github_webhook
    rw [if_neg (by decide), if_neg (by decide)]

/-- Witness for C5: a push to `refs/heads/dev` touching a models path
yields no sync events. -/
theorem claim5_webhook_branch_restricted_witness :
    ("refs/heads/dev" : String) ≠ "refs/heads/main" ∧
    (github_webhook (some "push") ⟨"refs/heads/dev", ["models/x.pkl"]⟩
      (fun _ => ChangeType.modified)).2 = [] :=
  ⟨by decide,
    (claim5_webhook_branch_restricted ⟨"refs/heads/dev", ["models/x.pkl"]⟩
      (fun _ => ChangeType.modified) (by decide)).1⟩

/-- C6: `initialize_models` first empties both registry maps, then
registers exactly the models enumerated from the configured source: the
result does not depend on the pre-existing registry, the `active` map
ends empty, a successful GitHub enumeration yields exactly the
`list_github_models` dict, and any other source yields exactly the
filesystem scan from an empty registry. -/
theorem claim6_initialize_rebuilds_from_source (src : String)
    (gh : Except String (List GithubItem)) (ex : Bool) (mp : String)
    (listing : List FsItem) (reg : Registry) :
    (initialize_models src gh ex mp listing reg).active = [] ∧
    (∀ reg' : Registry, initialize_models src gh ex mp listing reg =
      initialize_models src gh ex mp listing reg') ∧
    (src = "github" → ∀ items, gh = .ok items →
      (initialize_models src gh ex mp listing reg).available =
        list_github_models items) ∧
    (src ≠ "github" →
      initialize_models src gh ex mp listing reg =
        _initialize_from_filesystem ex mp listing emptyRegistry) := by
  refine ⟨?_, fun reg' => rfl, ?_, ?_⟩
  · unfold initialize_models clear_all
    by_cases h : src = "github"
    · rw [if_pos h]
      unfold _initialize_from_github
      cases gh with
      | ok items => exact register_fold_active _ _
      | error e => rfl
    · rw [if_neg h]
      unfold _initialize_from_filesystem
      by_cases hex : (!ex) = true
      · rw [if_pos hex]
        rfl
      · rw [if_neg hex]
        exact fs_fold_active _ _ _
  · intro h items hgh
    subst hgh
    unfold initialize_models clear_all
    rw [if_pos h]
    unfold _initialize_from_github
    rw [register_fold_of_nodup (list_github_models items) emptyRegistry
      (by simp [dictKeys, emptyRegistry]) (by simp [dictKeys, emptyRegistry])
      (list_github_models_nodup_aux items [] (by simp [dictKeys]))]
    simp [emptyRegistry]
  · intro h
    unfold initialize_models clear_all
    rw [if_neg h]

/-- Witness for C6 at concrete inputs. -/
theorem claim6_initialize_rebuilds_from_source_witness :
    (initialize_models "github" (.ok [⟨"x.pkl", "file"⟩]) true "/models"
      [⟨"y.pkl", false, true⟩] reg0).active = [] ∧
    (initialize_models "github" (.ok [⟨"x.pkl", "file"⟩]) true "/models"
      [⟨"y.pkl", false, true⟩] reg0).available =
      list_github_models [⟨"x.pkl", "file"⟩] ∧
    initialize_models "local_filesystem" (.ok []) true "/models"
      [⟨"y.pkl", false, true⟩] reg0 =
      _initialize_from_filesystem true "/models" [⟨"y.pkl", false, true⟩]
        emptyRegistry :=
  ⟨(claim6_initialize_rebuilds_from_source "github" (.ok [⟨"x.pkl", "file"⟩])
      true "/models" [⟨"y.pkl", false, true⟩] reg0).1,
    (claim6_initialize_rebuilds_from_source "github" (.ok [⟨"x.pkl", "file"⟩])
      true "/models" [⟨"y.pkl", false, true⟩] reg0).2.2.1 rfl _ rfl,
    (claim6_initialize_rebuilds_from_source "local_filesystem" (.ok [])
      true "/models" [⟨"y.pkl", false, true⟩] reg0).2.2.2 (by decide)⟩

/-- C7: when the model is active, inference succeeds, and forwarding the
built response payload fails, `predict` answers 500 with
`Failed to forward prediction` rather than success. -/
theorem claim7_forward_failure_returns_500 (reg : Registry)
    (model_name : String) (request_json : Option Json) (am : ActiveModel)
    (infer : String → Nat → Option Json → Except String Json)
    (send_ok : Json → String → Bool) (dest : String)
    (features : Option Json) (result0 : Json)
    (hact : get_active_model reg model_name = some am)
    (hfeat : predictFeatures request_json = .ok features)
    (hinf : infer am.model_path am.model features = .ok result0)
    (hsend : send_ok (Json.obj [("model", Json.str model_name),
      ("status", Json.str "success"),
      ("prediction", unwrapPredictions result0)]) model_name = false) :
    predict reg model_name request_json infer send_ok dest =
      .ok ⟨500, Json.obj [("error", Json.str "Failed to forward prediction")]⟩ := by
  unfold predict
  rw [hact, hfeat]
  show Except.ok (predictWithFeatures am model_name features infer send_ok dest) = _
  unfold predictWithFeatures
  rw [hinf]
  simp [hsend]

/-- Witness for C7 at concrete inputs. -/
theorem claim7_forward_failure_returns_500_witness :
    get_active_model reg0 "m" = some am0 ∧
    predictFeatures (some (Json.obj [("input", Json.num 2)])) =
      .ok (some (Json.num 2)) ∧
    infer0 am0.model_path am0.model (some (Json.num 2)) = .ok (Json.num 1) ∧
    predict reg0 "m" (some (Json.obj [("input", Json.num 2)])) infer0
      sendFalse "kafka" =
      .ok ⟨500, Json.obj [("error", Json.str "Failed to forward prediction")]⟩ :=
  ⟨rfl, rfl, rfl,
    claim7_forward_failure_returns_500 reg0 "m"
      (some (Json.obj [("input", Json.num 2)])) am0 infer0 sendFalse "kafka"
      (some (Json.num 2)) (Json.num 1) rfl rfl rfl rfl⟩

/-- C2: materializing a directory-shaped model entry removes any
pre-existing destination before downloading (the definition performs
`rmtree` first), so afterwards the paths under `/models/<model_name>` are
exactly the freshly fetched ones — every fetched path lies under the
destination, and a path under the destination is in the resulting
filesystem iff it was fetched — and the returned path is the
destination. -/
theorem claim2_download_dir_clean_overwrite (entry : Metadata)
    (children : List GhTree) (fs : List String)
    (hname : goodName entry.model_name = true)
    (hvalid : forestValid children = true) :
    (∀ p ∈ forestPaths children ("/models/" ++ entry.model_name),
      strUnder ("/models/" ++ entry.model_name) p = true) ∧
    ∃ fs2 : List String,
      download_github_model entry (GhInfo.dirListing children) fs =
        .ok ("/models/" ++ entry.model_name, fs2) ∧
      ∀ p : String, strUnder ("/models/" ++ entry.model_name) p = true →
        (p ∈ fs2 ↔
          p ∈ forestPaths children ("/models/" ++ entry.model_name)) := by
  have happ : ("/models" : String) ++ "/" = "/models/" := by decide
  have hdest : pathJoin "/models" entry.model_name =
      "/models/" ++ entry.model_name := by
    rw [pathJoin_good (by decide) hname, happ]
  have hgood : goodDir ("/models/" ++ entry.model_name) = true := by
    rw [← happ]
    exact goodDir_join (by decide) hname
  refine ⟨forestPaths_under children _ hvalid hgood, ?_⟩
  simp only [download_github_model, hdest]
  rw [download_forest_ok _ children _ hvalid]
  refine ⟨_, rfl, ?_⟩
  intro p hp
  rw [mem_foldl_addFile]
  constructor
  · rintro (hmem | hmem)
    · exfalso
      have hclean := clean_no_under fs ("/models/" ++ entry.model_name) p hmem
      rw [hclean] at hp
      exact Bool.false_ne_true hp
    · exact hmem
  · intro hmem
    exact Or.inr hmem

/-- Witness for C2 at concrete inputs: a tree with a file and a
subdirectory, over a filesystem holding a stale file under the
destination. -/
theorem claim2_download_dir_clean_overwrite_witness :
    goodName entry0.model_name = true ∧ forestValid children0 = true ∧
    ((∀ p ∈ forestPaths children0 ("/models/" ++ entry0.model_name),
      strUnder ("/models/" ++ entry0.model_name) p = true) ∧
    ∃ fs2 : List String,
      download_github_model entry0 (GhInfo.dirListing children0) fs0 =
        .ok ("/models/" ++ entry0.model_name, fs2) ∧
      ∀ p : String, strUnder ("/models/" ++ entry0.model_name) p = true →
        (p ∈ fs2 ↔
          p ∈ forestPaths children0 ("/models/" ++ entry0.model_name))) :=
  ⟨by decide, by simp only [children0, forestValid]; decide,
    claim2_download_dir_clean_overwrite entry0 children0 fs0
      (by decide) (by simp only [children0, forestValid]; decide)⟩

/-- C9 fails as stated: a request body that is truthy, valid JSON but not
an object — for example `[1]` — lacks the `input` key, yet the handler
does not invoke the model with `None` features; `payload.get` raises an
`AttributeError` before the inference `try` block. -/
theorem claim9_counterexample :
    predict reg0 "m" (some (Json.arr [Json.num 1])) infer0 sendTrue "kafka" =
      .error "AttributeError" ∧
    predict reg0 "m" (some (Json.arr [Json.num 1])) infer0 sendTrue "kafka" ≠
      .ok (predictWithFeatures am0 "m" none infer0 sendTrue "kafka") := by
  refine ⟨rfl, ?_⟩
  intro h
  exact Except.noConfusion h

/-- C9 (amended): when the request body is absent, not valid JSON, falsy,
or a JSON object lacking the `input` key, `predict` substitutes an empty
payload where applicable and proceeds into inference with features
`None`; a truthy non-object body instead raises before inference. -/
theorem claim9_features_none (reg : Registry) (model_name : String)
    (am : ActiveModel) (request_json : Option Json)
    (infer : String → Nat → Option Json → Except String Json)
    (send_ok : Json → String → Bool) (dest : String)
    (hact : get_active_model reg model_name = some am)
    (hbody : request_json = none ∨
      (∃ j, request_json = some j ∧ jsonTruthy j = false) ∨
      (∃ fields, request_json = some (Json.obj fields) ∧
        fields.find? (fun p => p.1 == "input") = none)) :
    predictFeatures request_json = .ok none ∧
    predict reg model_name request_json infer send_ok dest =
      .ok (predictWithFeatures am model_name none infer send_ok dest) := by
  have hfeat : predictFeatures request_json = .ok none := by
    rcases hbody with rfl | ⟨j, rfl, hj⟩ | ⟨fields, rfl, hf⟩
    · rfl
    · show pyGet (if jsonTruthy j = true then j else Json.obj []) "input" =
        Except.ok none
      rw [if_neg (by rw [hj]; exact Bool.false_ne_true)]
      rfl
    · show pyGet (if jsonTruthy (Json.obj fields) = true then Json.obj fields
        else Json.obj []) "input" = Except.ok none
      by_cases ht : jsonTruthy (Json.obj fields) = true
      · rw [if_pos ht]
        show Except.ok ((fields.find? (fun p => p.1 == "input")).map
          (fun p => p.2)) = Except.ok none
        rw [hf]
        rfl
      · rw [if_neg ht]
        rfl
  refine ⟨hfeat, ?_⟩
  unfold predict
  rw [hact, hfeat]

/-- Witness for C9 (amended) at concrete inputs: an object body without
the `input` key reaches inference with `None` features. -/
theorem claim9_features_none_witness :
    get_active_model reg0 "m" = some am0 ∧
    predictFeatures (some (Json.obj [("data", Json.num 3)])) = .ok none ∧
    predict reg0 "m" (some (Json.obj [("data", Json.num 3)])) infer0
      sendTrue "kafka" =
      .ok (predictWithFeatures am0 "m" none infer0 sendTrue "kafka") := by
  have h := claim9_features_none reg0 "m" am0
    (some (Json.obj [("data", Json.num 3)])) infer0 sendTrue "kafka" rfl
    (Or.inr (Or.inr ⟨[("data", Json.num 3)], rfl, rfl⟩))
  exact ⟨rfl, h.1, h.2⟩

end MLServe
